import Mathlib

set_option autoImplicit false

/-!
Verification of the review-orchestration core of the `code_review` repository.
Python strings are modelled as `List Char`; every source function used by a
claim is translated into an executable Lean definition, and the claims are
settled as theorems about those definitions.
-/

/-- Character-list model of a Python string: the shallow embedding works on
`List Char` so every string operation of the source is an executable total
function. -/
abbrev Str := List Char

/-- Coerce a Lean string literal into the `List Char` model. -/
def strL (s : String) : Str := s.toList

/-- Python `text.split('\n')`, accumulator form: `acc` is the current line
collected so far. -/
def splitLinesAux (acc : Str) : Str → List Str
  | [] => [acc]
  | c :: cs => if c = '\n' then acc :: splitLinesAux [] cs else splitLinesAux (acc ++ [c]) cs

/-- Python `text.split('\n')`. -/
def splitLines (s : Str) : List Str := splitLinesAux [] s

/-- Python `'\n'.join(lines)`. -/
def intercalateNL : List Str → Str
  | [] => []
  | [l] => l
  | l :: l2 :: rest => l ++ '\n' :: intercalateNL (l2 :: rest)

/-! ## Token estimation and diff chunking
Source: `multi_provider_integration.py`, `_estimate_tokens` and `_chunk_diff`. -/

/-- `_estimate_tokens`: rough token estimation, one token per 4 characters
(`len(text) // 4`). -/
def estimate_tokens (text : Str) : Nat := text.length / 4

/-- File-boundary test used by `_chunk_diff`:
`line.startswith('diff --git') or line.startswith('+++') or line.startswith('---')`. -/
def isChunkBoundary (l : Str) : Bool :=
  (strL "diff --git").isPrefixOf l || (strL "+++").isPrefixOf l || (strL "---").isPrefixOf l

/-- Loop of `_chunk_diff` over the diff lines. `cur` is `current_chunk`,
`tok` is `current_tokens` (the running sum of per-line token estimates).
The source also assigns `current_file = line` at boundaries, but that
variable is never read, so it is not modelled.  The boundary cut condition
`current_tokens > max_chunk_tokens * 0.7` is float arithmetic in the source;
at the only budget the program uses (80000) the product is exactly the float
56000.0, so the comparison is the exact rational one `10 * tok > 7 * mx`. -/
def chunkAux (mx : Nat) (cur : List Str) (tok : Nat) : List Str → List (List Str)
  | [] => if cur.isEmpty then [] else [cur]
  | line :: rest =>
    let lt := estimate_tokens line
    let fl1 := isChunkBoundary line && decide (10 * tok > 7 * mx) && !cur.isEmpty
    let cur1 := if fl1 then [] else cur
    let tok1 := if fl1 then 0 else tok
    let out1 : List (List Str) := if fl1 then [cur] else []
    let fl2 := decide (tok1 + lt > mx) && !cur1.isEmpty
    let cur2 := if fl2 then [] else cur1
    let tok2 := if fl2 then 0 else tok1
    let out2 : List (List Str) := if fl2 then [cur1] else []
    out1 ++ out2 ++ chunkAux mx (cur2 ++ [line]) (tok2 + lt) rest

/-- `_chunk_diff`: return the whole diff when it fits the budget, else split
its lines into chunks and rejoin each chunk with newlines. -/
def chunk_diff (mx : Nat) (d : Str) : List Str :=
  if estimate_tokens d ≤ mx then [d]
  else (chunkAux mx [] 0 (splitLines d)).map intercalateNL



/-! ## Pre-filtering of extremely large diffs
Source: `multi_provider_integration.py`, `_filter_important_files`. -/

/-- Python `str.lower()` restricted to ASCII, which covers every comparison
the program makes (all pattern keywords are ASCII). -/
def lowerStr (s : Str) : Str := s.map Char.toLower

/-- High-priority path keywords of `_filter_important_files`. -/
def high_priority_patterns : List Str :=
  [strL "auth", strL "login", strL "password", strL "token", strL "session", strL "security",
   strL ".env", strL "config", strL "settings", strL ".yml", strL ".yaml", strL ".json",
   strL "service", strL "controller", strL "model", strL "handler", strL "api",
   strL "db", strL "database", strL "migration", strL "schema", strL "repository",
   strL "main", strL "index", strL "app", strL "server", strL "router"]

/-- Low-priority path keywords of `_filter_important_files`. -/
def low_priority_patterns : List Str :=
  [strL "test", strL "spec", strL "__test__",
   strL "readme", strL ".md", strL "doc",
   strL "package-lock", strL "yarn.lock", strL "build", strL "dist",
   strL "assets", strL "static", strL "public", strL "images"]

/-- Python substring containment `pat in s`. -/
def inStr (pat : Str) : Str → Bool
  | [] => pat.isEmpty
  | c :: cs => pat.isPrefixOf (c :: cs) || inStr pat cs

/-- Keyword score computed inside the loop of `_filter_important_files`:
starts at 1, +3 on a high-priority keyword occurring in the lowercased name,
-2 on a low-priority keyword (the source `break`s after the first hit, which
equals an `any` test). -/
def filePriority (name : Str) : Int :=
  1 + (if high_priority_patterns.any (fun p => inStr p (lowerStr name)) then 3 else 0)
    - (if low_priority_patterns.any (fun p => inStr p (lowerStr name)) then 2 else 0)

/-- Python `line.split(sep)[-1]` for a nonempty separator: the suffix after
the last non-overlapping left-to-right occurrence of `sep`, or the whole
line when `sep` does not occur (which also matches the source branch
`... if ' b/' in line else line`).  `acc` is the field being scanned; the
fuel bounds the remaining steps and never runs out for nonempty `sep`. -/
def pyLastFieldAux (sep : Str) (acc : Str) : Nat → Str → Str
  | _, [] => acc
  | 0, s => acc ++ s
  | fuel+1, c :: cs =>
    if sep.isPrefixOf (c :: cs) then pyLastFieldAux sep [] fuel ((c :: cs).drop sep.length)
    else pyLastFieldAux sep (acc ++ [c]) fuel cs

/-- Python `line.split(sep)[-1]`. -/
def pyLastField (sep s : Str) : Str := pyLastFieldAux sep [] s.length s

/-- Entry of the `files` dict built by `_filter_important_files`. -/
structure FileEntry where
  lines : List Str
  priority : Int
  size : Nat

/-- Python dict assignment `d[k] = v`: replace in place when the key is
present (dicts keep insertion order), append otherwise. -/
def dictSet (d : List (Str × FileEntry)) (k : Str) (v : FileEntry) : List (Str × FileEntry) :=
  if d.any (fun p => decide (p.1 = k)) then d.map (fun p => if p.1 = k then (k, v) else p)
  else d ++ [(k, v)]

/-- Python `files[current_file]['priority'] = priority`, executed by the
source only when the key is present. -/
def dictSetPriority (d : List (Str × FileEntry)) (k : Str) (pr : Int) : List (Str × FileEntry) :=
  d.map (fun p => if p.1 = k then (p.1, ⟨p.2.lines, pr, p.2.size⟩) else p)

/-- Header test `line.startswith('diff --git')`, shared by
`_filter_important_files` and `parse_diff_hunks`. -/
def isFileHeader (l : Str) : Bool := (strL "diff --git").isPrefixOf l

/-- Loop of `_filter_important_files` over the diff lines.  `files` is the
insertion-ordered dict, `cf` is `current_file` (`none` before the first
header), `cfl` is `current_file_lines`.  A file is saved only when
`current_file and current_file_lines` is truthy (name and line list both
nonempty).  A file saved when the next header arrives is stored with
priority 0 and the file saved after the loop with priority 1; the keyword
score `pr` is only written back when the new name is already a key. -/
def filterLoop (files : List (Str × FileEntry)) (cf : Option Str) (cfl : List Str) :
    List Str → List (Str × FileEntry)
  | [] =>
    match cf with
    | some f =>
      if f ≠ [] ∧ cfl ≠ [] then dictSet files f ⟨cfl, 1, (intercalateNL cfl).length⟩ else files
    | none => files
  | line :: rest =>
    if isFileHeader line then
      let files1 :=
        match cf with
        | some f =>
          if f ≠ [] ∧ cfl ≠ [] then dictSet files f ⟨cfl, 0, (intercalateNL cfl).length⟩
          else files
        | none => files
      let nf := pyLastField (strL " b/") line
      let files2 :=
        if files1.any (fun p => decide (p.1 = nf)) then dictSetPriority files1 nf (filePriority nf)
        else files1
      filterLoop files2 (some nf) [line] rest
    else
      filterLoop files cf (cfl ++ [line]) rest

/-- Sort key `(priority, -size)` of `_filter_important_files`. -/
def entryKey (e : Str × FileEntry) : Int × Int := (e.2.priority, -(e.2.size : Int))

/-- Strict lexicographic "greater" on sort keys. -/
def keyGt (a b : Int × Int) : Bool :=
  decide (a.1 > b.1) || (decide (a.1 = b.1) && decide (a.2 > b.2))

/-- Stable descending insertion: a later element goes after every earlier
element whose key is not strictly smaller, reproducing the stability of
Python `sorted(..., reverse=True)`. -/
def insertDesc (x : Str × FileEntry) : List (Str × FileEntry) → List (Str × FileEntry)
  | [] => [x]
  | y :: ys => if keyGt (entryKey x) (entryKey y) then x :: y :: ys else y :: insertDesc x ys

/-- Python `sorted(files.items(), key=lambda x: (x[1]['priority'], -x[1]['size']), reverse=True)`. -/
def sortFilesDesc (l : List (Str × FileEntry)) : List (Str × FileEntry) :=
  l.foldl (fun acc x => insertDesc x acc) []

/-- `_filter_important_files`: build the per-file table from the diff lines,
sort it, keep the top `maxFiles` entries and rejoin their lines. -/
def filter_important_files (d : Str) (maxFiles : Nat) : Str :=
  intercalateNL
    ((((sortFilesDesc (filterLoop [] none [] (splitLines d))).take maxFiles).map
      (fun p => p.2.lines)).flatten)

/-- Names of the files kept by `_filter_important_files`. -/
def filterKeptNames (d : Str) (maxFiles : Nat) : List Str :=
  ((sortFilesDesc (filterLoop [] none [] (splitLines d))).take maxFiles).map (fun p => p.1)

/-- Concrete sixteen-file diff used to evaluate C1: a security-critical
`auth` file with the largest change followed by fifteen test files, the kind
of input the claim ranks by keyword priority. -/
def c1Diff : Str :=
  strL "diff --git a/auth b/auth\n+aaaaaaaaaaaaaaaaaaaaaaaa\ndiff --git a/t0.test b/t0.test\n+x\ndiff --git a/t1.test b/t1.test\n+x\ndiff --git a/t2.test b/t2.test\n+x\ndiff --git a/t3.test b/t3.test\n+x\ndiff --git a/t4.test b/t4.test\n+x\ndiff --git a/t5.test b/t5.test\n+x\ndiff --git a/t6.test b/t6.test\n+x\ndiff --git a/t7.test b/t7.test\n+x\ndiff --git a/t8.test b/t8.test\n+x\ndiff --git a/t9.test b/t9.test\n+x\ndiff --git a/t10.test b/t10.test\n+x\ndiff --git a/t11.test b/t11.test\n+x\ndiff --git a/t12.test b/t12.test\n+x\ndiff --git a/t13.test b/t13.test\n+x\ndiff --git a/t14.test b/t14.test\n+x"



/-! ## Provider fallback
Source: `multi_provider_integration.py`, `MultiProviderReviewer._review_single_chunk`.
A provider client's `complete` call is modelled by its outcome: `some r`
when it returns response `r`, `none` when it raises; the raised
`ProviderException` is modelled as `Except.error ()`. -/

/-- Registry state of `MultiProviderReviewer` used by `_review_single_chunk`:
the primary provider id, the ordered fallback ids, and the insertion-ordered
`providers` dict. -/
structure Orchestrator where
  primary : Str
  fallbacks : List Str
  providers : List (Str × Option Str)

/-- Python dict membership plus lookup, `k in d` / `d[k]`. -/
def dictGet (d : List (Str × Option Str)) (k : Str) : Option (Option Str) :=
  (d.find? (fun p => decide (p.1 = k))).map (fun p => p.2)

/-- The `for fallback in self.fallback_providers` loop of
`_review_single_chunk`: try each registered fallback in order, return the
first success, raise `ProviderException` when the list is exhausted. -/
def tryFallbacks (ps : List (Str × Option Str)) : List Str → Except Unit Str
  | [] => .error ()
  | f :: rest =>
    match dictGet ps f with
    | some (some r) => .ok r
    | some none => tryFallbacks ps rest
    | none => tryFallbacks ps rest

/-- `_review_single_chunk`: attempt the primary provider when registered,
then the fallbacks in configured order; raise when everything fails. -/
def review_single_chunk (o : Orchestrator) : Except Unit Str :=
  match dictGet o.providers o.primary with
  | some (some r) => .ok r
  | some none => tryFallbacks o.providers o.fallbacks
  | none => tryFallbacks o.providers o.fallbacks

/-- The providers `_review_single_chunk` actually attempts, in order: the
primary when registered, then every registered fallback. -/
def attemptList (o : Orchestrator) : List Str :=
  (if (dictGet o.providers o.primary).isSome then [o.primary] else []) ++
    o.fallbacks.filter (fun f => (dictGet o.providers f).isSome)

/-- First successful outcome among a list of provider names. -/
def firstSuccess (ps : List (Str × Option Str)) : List Str → Option Str
  | [] => none
  | n :: rest =>
    match dictGet ps n with
    | some (some r) => some r
    | _ => firstSuccess ps rest



/-! ## Response parsing
Source: `ai_code_reviewer.py`, `_parse_review_response` and
`_create_fallback_review`. -/

/-- Python whitespace set of `str.strip()` (ASCII range, which covers every
string the program strips). -/
def isPySpace (c : Char) : Bool :=
  c = ' ' || c = '\t' || c = '\n' || c = '\r' || c = '\x0b' || c = '\x0c'

/-- Python `s.strip()`. -/
def pyStrip (s : Str) : Str :=
  ((s.dropWhile isPySpace).reverse.dropWhile isPySpace).reverse

/-- Python `s.find(c)`, with `none` for `-1`. -/
def pyFindAux (c : Char) (i : Nat) : Str → Option Nat
  | [] => none
  | x :: xs => if x = c then some i else pyFindAux c (i + 1) xs

/-- Python `s.find(c)`. -/
def pyFind (c : Char) (s : Str) : Option Nat := pyFindAux c 0 s

/-- Python `s.rfind(c)`, with `none` for `-1`. -/
def pyRfindAux (c : Char) (i : Nat) (best : Option Nat) : Str → Option Nat
  | [] => best
  | x :: xs => pyRfindAux c (i + 1) (if x = c then some i else best) xs

/-- Python `s.rfind(c)`. -/
def pyRfind (c : Char) (s : Str) : Option Nat := pyRfindAux c 0 none s

/-- Python `s.replace(pat, rep)` for nonempty `pat`: replace every
non-overlapping occurrence left to right.  The fuel bounds the remaining
steps; it starts at `s.length` and never runs out since every step consumes
at least one character. -/
def pyReplaceAux (pat rep : Str) : Nat → Str → Str
  | _, [] => []
  | 0, s => s
  | fuel + 1, c :: cs =>
    if pat ≠ [] ∧ pat.isPrefixOf (c :: cs) then
      rep ++ pyReplaceAux pat rep fuel ((c :: cs).drop pat.length)
    else c :: pyReplaceAux pat rep fuel cs

/-- Python `s.replace(pat, rep)`. -/
def pyReplace (pat rep s : Str) : Str := pyReplaceAux pat rep s.length s

/-- A decoded finding record: the required keys of `_parse_review_response`
(`severity`, `category`, `file`, `line_start`, `line_end`, `message`) read
with `finding[...]` and the optional keys read with `finding.get(...)`. -/
structure Finding where
  severity : String
  category : String
  file : String
  line_start : Int
  line_end : Int
  message : String
  suggestion : Option String
  code_snippet : Option String
  fixed_code : Option String
  impact : Option String
  confidence : Option String

/-- The `CodeReview` dataclass of `ai_code_reviewer.py`. -/
structure CodeReview where
  severity : String
  category : String
  file : String
  line_start : Int
  line_end : Int
  message : String
  suggestion : Option String
  code_snippet : Option String
  fixed_code : Option String
  impact : Option String
  confidence : Option String

/-- The `CodeReview(...)` construction in the success loop of
`_parse_review_response`. -/
def findingToReview (f : Finding) : CodeReview :=
  ⟨f.severity, f.category, f.file, f.line_start, f.line_end, f.message,
   f.suggestion, f.code_snippet, f.fixed_code, f.impact, f.confidence⟩

/-- Outcome of `json.loads` on the cleaned text together with the field
extraction of the success loop.  `json.loads` is Python standard library,
not repository code, so it is abstracted as a parameter: `jsonError` models
`json.JSONDecodeError` (handled by the fallback branch) and `otherError`
models any other exception of the `try` body, e.g. a `KeyError` on a
missing required field (handled by the final `except Exception`). -/
inductive DecodeOutcome where
  | ok (fs : List Finding)
  | jsonError
  | otherError

/-- Cleaning pipeline of `_parse_review_response`, in source order: strip;
drop a leading ```json fence (7 chars) and a leading ``` fence (3 chars);
drop a trailing ``` fence; slice from the first `[` to the last `]` when
both exist in that order; blank out newlines and carriage returns; repair
the two trailing-comma malformations; strip again (the source calls
`.strip()` inside `json.loads(...)`). -/
def cleanResponse (raw : Str) : Str :=
  let t0 := pyStrip raw
  let t1 := if (strL "```json").isPrefixOf t0 then t0.drop 7 else t0
  let t2 := if (strL "```").isPrefixOf t1 then t1.drop 3 else t1
  let t3 := if (strL "```").isSuffixOf t2 then t2.take (t2.length - 3) else t2
  let t4 :=
    match pyFind '[' t3, pyRfind ']' t3 with
    | some s, some e => if s < e then (t3.drop s).take (e + 1 - s) else t3
    | _, _ => t3
  let t5 := pyReplace (strL "\n") (strL " ") t4
  let t6 := pyReplace (strL "\r") (strL " ") t5
  let t7 := pyReplace (strL "\",\x7d") (strL "\"\x7d") t6
  let t8 := pyReplace (strL ",]") (strL "]") t7
  pyStrip t8

/-- The single synthetic review built by `_create_fallback_review`. -/
def fallbackReview : CodeReview :=
  ⟨"info", "system", "unknown", 1, 1,
   "AI model returned malformed response - please try again or switch models",
   some "Consider using a different AI model or reducing diff complexity",
   some "", some "", some "Unable to analyze code due to parsing issues", some "low"⟩

/-- `_create_fallback_review`: the constructor call cannot fail, so the
`except` branch returning `[]` is dead code. -/
def create_fallback_review : List CodeReview := [fallbackReview]

/-- `_parse_review_response`, parameterised by the abstracted decode
outcome of the cleaned text: on success map the findings to reviews; on
`json.JSONDecodeError` return the fallback reviews when nonempty (they
always are); on any other exception return `[]`. -/
def parse_review_response (jloads : Str → DecodeOutcome) (raw : Str) : List CodeReview :=
  match jloads (cleanResponse raw) with
  | .ok fs => fs.map findingToReview
  | .jsonError => if create_fallback_review.isEmpty then [] else create_fallback_review
  | .otherError => []

/-! ## Project structure categorization
Source: `ai_code_reviewer.py`, `_analyze_project_structure`. -/

/-- Frontend extension markers (tested against the original-case path). -/
def frontendExts : List Str :=
  [strL ".js", strL ".jsx", strL ".ts", strL ".tsx", strL ".vue", strL ".html",
   strL ".css", strL ".scss"]

/-- Backend extension markers (original-case path). -/
def backendExts : List Str :=
  [strL ".py", strL ".java", strL ".go", strL ".cs", strL ".php", strL ".rb"]

/-- Database keywords (lowercased path). -/
def databaseTerms : List Str :=
  [strL "migration", strL "seed", strL ".sql", strL "database", strL "schema"]

/-- Configuration extension markers (original-case path). -/
def configExts : List Str :=
  [strL ".json", strL ".yaml", strL ".yml", strL ".toml", strL ".ini", strL ".env"]

/-- Test keywords (lowercased path). -/
def testTerms : List Str :=
  [strL "test", strL "spec", strL "__test__", strL ".test.", strL ".spec."]

/-- Documentation extension markers (original-case path, combined with a
`readme` test on the lowercased path). -/
def docExts : List Str := [strL ".md", strL ".rst", strL ".txt"]

/-- Build/deploy keywords (lowercased path). -/
def buildTerms : List Str :=
  [strL "dockerfile", strL "makefile", strL "package.json", strL "requirements",
   strL "build", strL "deploy"]

/-- Asset extension markers (original-case path). -/
def assetExts : List Str :=
  [strL ".png", strL ".jpg", strL ".svg", strL ".ico", strL ".gif"]

/-- The `if/elif` chain of `_analyze_project_structure`: the first matching
category, `none` when no rule matches (the chain has no `else`). -/
def categoryOf (f : Str) : Option String :=
  if frontendExts.any (fun e => inStr e f) then some "Frontend"
  else if backendExts.any (fun e => inStr e f) then some "Backend"
  else if databaseTerms.any (fun t => inStr t (lowerStr f)) then some "Database"
  else if configExts.any (fun e => inStr e f) then some "Configuration"
  else if testTerms.any (fun t => inStr t (lowerStr f)) then some "Tests"
  else if docExts.any (fun e => inStr e f) && inStr (strL "readme") (lowerStr f) then
    some "Documentation"
  else if buildTerms.any (fun t => inStr t (lowerStr f)) then some "Build/Deploy"
  else if assetExts.any (fun e => inStr e f) then some "Assets"
  else none

/-- The fixed ordered category list of the `structure` dict. -/
def structureCategories : List String :=
  ["Frontend", "Backend", "Database", "Configuration", "Tests", "Documentation",
   "Build/Deploy", "Assets"]

/-- The initial `structure` dict: every category with an empty bucket. -/
def bucketsInit : List (String × List Str) :=
  structureCategories.map (fun c => (c, ([] : List Str)))

/-- `structure[category].append(file_path)`. -/
def bucketAppend (st : List (String × List Str)) (c : String) (f : Str) :
    List (String × List Str) :=
  st.map (fun p => if p.1 = c then (p.1, p.2 ++ [f]) else p)

/-- `_analyze_project_structure`: append each file to the bucket of its
first matching rule, then drop empty buckets
(`{k: v for k, v in structure.items() if v}`, insertion order preserved). -/
def analyze_project_structure (allFiles : List Str) : List (String × List Str) :=
  (allFiles.foldl
    (fun st f =>
      match categoryOf f with
      | some c => bucketAppend st c f
      | none => st)
    bucketsInit).filter (fun p => !p.2.isEmpty)



/-! ## File context extraction
Source: `ai_code_reviewer.py`, `GitIntegration.get_file_content`,
`_detect_language`, `_extract_imports`, `_extract_functions`,
`_extract_classes`, `get_file_context`.  The `re.findall` calls are
embedded as deterministic scanners: each concrete pattern alternates
character classes that are disjoint from their successors, so greedy
matching needs no backtracking except where noted. -/

/-- Regex class `\w` (ASCII, which covers the program's inputs). -/
def isWordChar (c : Char) : Bool := c.isAlphanum || c = '_'

/-- Regex class `\s` (ASCII). -/
def isReSpace (c : Char) : Bool := isPySpace c

/-- Greedy `p+`: at least one character satisfying `p`; returns the run
and the remainder. -/
def munch1 (p : Char → Bool) (s : Str) : Option (Str × Str) :=
  match s.takeWhile p with
  | [] => none
  | run => some (run, s.dropWhile p)

/-- Literal match, returning the remainder. -/
def expectL (pat : Str) (s : Str) : Option Str :=
  if pat.isPrefixOf s then some (s.drop pat.length) else none

/-- Whether the character just before the remainder `rest` inside `s` is a
newline (used to track multi-line `^` anchors across a match). -/
def lastConsumedNL (s rest : Str) : Bool :=
  match (s.take (s.length - rest.length)).getLast? with
  | some c => c = '\n'
  | none => false

/-- `re.findall` driver: scan left to right; try `matchAt` only at anchored
positions (input start or just after a newline) when `anchored` is true and
at every position otherwise; a match consumes its span (non-overlapping
search), a failure advances one character.  Every pattern used here matches
at least one character, so the fuel `s.length` suffices. -/
def scanAll (matchAt : Str → Option (Str × Str)) (anchored : Bool) :
    Nat → Bool → Str → List Str
  | _, _, [] => []
  | 0, _, _ => []
  | fuel + 1, atStart, c :: cs =>
    if anchored && !atStart then scanAll matchAt anchored fuel (c = '\n') cs
    else
      match matchAt (c :: cs) with
      | some (cap, rest) =>
        cap :: scanAll matchAt anchored fuel (lastConsumedNL (c :: cs) rest) rest
      | none => scanAll matchAt anchored fuel (c = '\n') cs

/-- Body of the python function pattern `^\s*def\s+(\w+)\s*\(` from the
anchor on. -/
def pyDefMatchAt (s : Str) : Option (Str × Str) :=
  (expectL (strL "def") (s.dropWhile isReSpace)).bind fun s2 =>
  (munch1 isReSpace s2).bind fun p3 =>
  (munch1 isWordChar p3.2).bind fun p4 =>
  (expectL (strL "(") (p4.2.dropWhile isReSpace)).map fun rest => (p4.1, rest)

/-- `function\s+(\w+)\s*\(`. -/
def jsFunctionMatchAt (s : Str) : Option (Str × Str) :=
  (expectL (strL "function") s).bind fun s1 =>
  (munch1 isReSpace s1).bind fun p2 =>
  (munch1 isWordChar p2.2).bind fun p3 =>
  (expectL (strL "(") (p3.2.dropWhile isReSpace)).map fun rest => (p3.1, rest)

/-- `const\s+(\w+)\s*=\s*\(`. -/
def jsConstArrowMatchAt (s : Str) : Option (Str × Str) :=
  (expectL (strL "const") s).bind fun s1 =>
  (munch1 isReSpace s1).bind fun p2 =>
  (munch1 isWordChar p2.2).bind fun p3 =>
  (expectL (strL "=") (p3.2.dropWhile isReSpace)).bind fun s4 =>
  (expectL (strL "(") (s4.dropWhile isReSpace)).map fun rest => (p3.1, rest)

/-- `(\w+)\s*:\s*\([^)]*\)\s*=>` (the greedy `[^)]*` stops exactly at
the first `)`). -/
def jsMethodArrowMatchAt (s : Str) : Option (Str × Str) :=
  (munch1 isWordChar s).bind fun p1 =>
  (expectL (strL ":") (p1.2.dropWhile isReSpace)).bind fun s2 =>
  (expectL (strL "(") (s2.dropWhile isReSpace)).bind fun s3 =>
  (expectL (strL ")") (s3.dropWhile (fun c => c ≠ ')'))).bind fun s5 =>
  (expectL (strL "=>") (s5.dropWhile isReSpace)).map fun rest => (p1.1, rest)

/-- `\s*\w+\s+(\w+)\s*\(`, the tail of the java function pattern after
the optional modifier groups. -/
def javaFuncAfterMods (s : Str) : Option (Str × Str) :=
  (munch1 isWordChar (s.dropWhile isReSpace)).bind fun p2 =>
  (munch1 isReSpace p2.2).bind fun p3 =>
  (munch1 isWordChar p3.2).bind fun p4 =>
  (expectL (strL "(") (p4.2.dropWhile isReSpace)).map fun rest => (p4.1, rest)

/-- `\s*(static)?` before `javaFuncAfterMods`: the optional group is tried
first and dropped on failure, mirroring regex backtracking. -/
def javaFuncAfterAccess (s : Str) : Option (Str × Str) :=
  match expectL (strL "static") (s.dropWhile isReSpace) with
  | some s2 => (javaFuncAfterMods s2).orElse fun _ => javaFuncAfterMods (s.dropWhile isReSpace)
  | none => javaFuncAfterMods (s.dropWhile isReSpace)

/-- `(public|private|protected)?\s*(static)?\s*\w+\s+(\w+)\s*\(`; at a
position where an access modifier matched, the other alternatives cannot,
so the only backtracking alternative is the empty group. -/
def javaFuncMatchAt (s : Str) : Option (Str × Str) :=
  match expectL (strL "public") s with
  | some s2 => (javaFuncAfterAccess s2).orElse fun _ => javaFuncAfterAccess s
  | none =>
    match expectL (strL "private") s with
    | some s2 => (javaFuncAfterAccess s2).orElse fun _ => javaFuncAfterAccess s
    | none =>
      match expectL (strL "protected") s with
      | some s2 => (javaFuncAfterAccess s2).orElse fun _ => javaFuncAfterAccess s
      | none => javaFuncAfterAccess s

/-- `func\s+(\w+)\s*\(`. -/
def goFuncMatchAt (s : Str) : Option (Str × Str) :=
  (expectL (strL "func") s).bind fun s1 =>
  (munch1 isReSpace s1).bind fun p2 =>
  (munch1 isWordChar p2.2).bind fun p3 =>
  (expectL (strL "(") (p3.2.dropWhile isReSpace)).map fun rest => (p3.1, rest)

/-- Body of the python class pattern `^\s*class\s+(\w+).*:` from the
anchor on: the greedy `.*:` requires a colon later on the same line and
consumes through the last such colon. -/
def pyClassMatchAt (s : Str) : Option (Str × Str) :=
  (expectL (strL "class") (s.dropWhile isReSpace)).bind fun s2 =>
  (munch1 isReSpace s2).bind fun p3 =>
  (munch1 isWordChar p3.2).bind fun p4 =>
  let lineRest := p4.2.takeWhile (fun c => c ≠ '\n')
  if inStr (strL ":") lineRest then
    some (p4.1, pyLastField (strL ":") lineRest ++ p4.2.drop lineRest.length)
  else none

/-- `class\s+(\w+)`. -/
def jsClassMatchAt (s : Str) : Option (Str × Str) :=
  (expectL (strL "class") s).bind fun s1 =>
  (munch1 isReSpace s1).bind fun p2 =>
  (munch1 isWordChar p2.2).map fun p3 => (p3.1, p3.2)

/-- `interface\s+(\w+)`. -/
def jsInterfaceMatchAt (s : Str) : Option (Str × Str) :=
  (expectL (strL "interface") s).bind fun s1 =>
  (munch1 isReSpace s1).bind fun p2 =>
  (munch1 isWordChar p2.2).map fun p3 => (p3.1, p3.2)

/-- `type\s+(\w+)\s*=`. -/
def jsTypeMatchAt (s : Str) : Option (Str × Str) :=
  (expectL (strL "type") s).bind fun s1 =>
  (munch1 isReSpace s1).bind fun p2 =>
  (munch1 isWordChar p2.2).bind fun p3 =>
  (expectL (strL "=") (p3.2.dropWhile isReSpace)).map fun rest => (p3.1, rest)

/-- `\s*<kw>\s+(\w+)`, the tail of the java class/interface patterns
after the optional access modifier. -/
def javaClassAfter (kw : Str) (s : Str) : Option (Str × Str) :=
  (expectL kw (s.dropWhile isReSpace)).bind fun s2 =>
  (munch1 isReSpace s2).bind fun p3 =>
  (munch1 isWordChar p3.2).map fun p4 => (p4.1, p4.2)

/-- `(public|private)?\s*<kw>\s+(\w+)` for `kw` = `class` / `interface`. -/
def javaClassKwMatchAt (kw : Str) (s : Str) : Option (Str × Str) :=
  match expectL (strL "public") s with
  | some s2 => (javaClassAfter kw s2).orElse fun _ => javaClassAfter kw s
  | none =>
    match expectL (strL "private") s with
    | some s2 => (javaClassAfter kw s2).orElse fun _ => javaClassAfter kw s
    | none => javaClassAfter kw s

/-- `type\s+(\w+)\s+struct`. -/
def goStructMatchAt (s : Str) : Option (Str × Str) :=
  (expectL (strL "type") s).bind fun s1 =>
  (munch1 isReSpace s1).bind fun p2 =>
  (munch1 isWordChar p2.2).bind fun p3 =>
  (munch1 isReSpace p3.2).bind fun p4 =>
  (expectL (strL "struct") p4.2).map fun rest => (p3.1, rest)

/-- The go `import ( ... )` block loop of `_extract_imports`. -/
def goImportLoop (inBlock : Bool) : List Str → List Str
  | [] => []
  | line :: rest =>
    let l := pyStrip line
    if (strL "import (").isPrefixOf l then goImportLoop true rest
    else if l = strL ")" ∧ inBlock then goImportLoop false rest
    else if inBlock || (strL "import ").isPrefixOf l then l :: goImportLoop inBlock rest
    else goImportLoop inBlock rest

/-- `_extract_imports`: per-language line loops over the stripped lines,
truncated to 10 entries. -/
def extract_imports (content : Str) (language : String) : List Str :=
  (if language = "python" then
    (splitLines content).foldr
      (fun line acc =>
        let l := pyStrip line
        if (strL "import ").isPrefixOf l || (strL "from ").isPrefixOf l then l :: acc else acc) []
  else if language = "javascript" ∨ language = "typescript" then
    (splitLines content).foldr
      (fun line acc =>
        let l := pyStrip line
        if ((strL "import ").isPrefixOf l || (strL "const ").isPrefixOf l ||
            (strL "require(").isPrefixOf l) &&
            (inStr (strL "import") l || inStr (strL "require") l) then l :: acc else acc) []
  else if language = "java" then
    (splitLines content).foldr
      (fun line acc =>
        let l := pyStrip line
        if (strL "import ").isPrefixOf l then l :: acc else acc) []
  else if language = "go" then goImportLoop false (splitLines content)
  else []).take 10

/-- `_extract_functions`: per-language `re.findall` calls, truncated to 15;
the java branch keeps nonempty third groups only (`if match[2]`). -/
def extract_functions (content : Str) (language : String) : List Str :=
  (if language = "python" then scanAll pyDefMatchAt true content.length true content
  else if language = "javascript" ∨ language = "typescript" then
    scanAll jsFunctionMatchAt false content.length true content ++
    scanAll jsConstArrowMatchAt false content.length true content ++
    scanAll jsMethodArrowMatchAt false content.length true content
  else if language = "java" then
    (scanAll javaFuncMatchAt false content.length true content).filter (fun n => !n.isEmpty)
  else if language = "go" then scanAll goFuncMatchAt false content.length true content
  else []).take 15

/-- `_extract_classes`: per-language `re.findall` calls, truncated to 10;
the java branch keeps nonempty second groups only (`if match[1]`). -/
def extract_classes (content : Str) (language : String) : List Str :=
  (if language = "python" then scanAll pyClassMatchAt true content.length true content
  else if language = "javascript" ∨ language = "typescript" then
    scanAll jsClassMatchAt false content.length true content ++
    scanAll jsInterfaceMatchAt false content.length true content ++
    scanAll jsTypeMatchAt false content.length true content
  else if language = "java" then
    (scanAll (javaClassKwMatchAt (strL "class")) false content.length true content).filter
      (fun n => !n.isEmpty) ++
    (scanAll (javaClassKwMatchAt (strL "interface")) false content.length true content).filter
      (fun n => !n.isEmpty)
  else if language = "go" then scanAll goStructMatchAt false content.length true content
  else []).take 10

/-- `pathlib.Path(p).suffix`: the extension of the final path component,
dot included; empty when the last dot is leading, trailing or absent. -/
def pathSuffix (p : Str) : Str :=
  let name := pyLastField (strL "/") p
  match pyRfind '.' name with
  | some i => if 0 < i ∧ i + 1 < name.length then name.drop i else []
  | none => []

/-- The extension table of `_detect_language`. -/
def language_map : List (Str × String) :=
  [(strL ".py", "python"), (strL ".js", "javascript"), (strL ".ts", "typescript"),
   (strL ".tsx", "typescript"), (strL ".jsx", "javascript"), (strL ".java", "java"),
   (strL ".go", "go"), (strL ".rs", "rust"), (strL ".cpp", "cpp"), (strL ".c", "c"),
   (strL ".cs", "csharp"), (strL ".php", "php"), (strL ".rb", "ruby"),
   (strL ".swift", "swift"), (strL ".kt", "kotlin"), (strL ".scala", "scala"),
   (strL ".sh", "bash"), (strL ".yml", "yaml"), (strL ".yaml", "yaml"),
   (strL ".json", "json"), (strL ".xml", "xml"), (strL ".html", "html"),
   (strL ".css", "css"), (strL ".scss", "scss"), (strL ".sql", "sql")]

/-- `_detect_language`: look the lowercased extension up in the fixed
table, `unknown` as fallback. -/
def detect_language (p : Str) : String :=
  match (language_map.find? (fun e => decide (e.1 = lowerStr (pathSuffix p)))).map
    (fun e => e.2) with
  | some lang => lang
  | none => "unknown"

/-- Result of reading a file from the working directory. -/
inductive FsResult where
  | ok (content : Str)
  | notFound
  | decodeError

/-- The version-control / filesystem collaborator: `git` is the stdout of
`git show HEAD:path` (`none` when the subprocess fails), `fs` the
`open(path, encoding='utf-8').read()` call. -/
structure Env where
  git : Str → Option Str
  fs : Str → FsResult

/-- `GitIntegration.get_file_content` at the default ref: the git output
when the subprocess succeeds, otherwise the working-tree read, where a
missing file yields the empty string and a decode error propagates as the
raised exception. -/
def get_file_content (env : Env) (p : Str) : Except Unit Str :=
  match env.git p with
  | some s => Except.ok s
  | none =>
    match env.fs p with
    | .ok c => Except.ok c
    | .notFound => Except.ok []
    | .decodeError => Except.error ()

/-- The `FileContext` named tuple. -/
structure FileContext where
  file_path : Str
  language : String
  imports : List Str
  functions : List Str
  classes : List Str
  total_lines : Nat

/-- `GitIntegration.get_file_context`: build the context from the file
content; any exception while reading yields the `unknown`/empty context. -/
def get_file_context (env : Env) (p : Str) : FileContext :=
  match get_file_content env p with
  | .error _ => ⟨p, "unknown", [], [], [], 0⟩
  | .ok content =>
    ⟨p, detect_language p,
     extract_imports content (detect_language p),
     extract_functions content (detect_language p),
     extract_classes content (detect_language p),
     (splitLines content).length⟩



/-! ## Breaking-change detection
Source: `ai_code_reviewer.py`, `GitIntegration._detect_breaking_changes`. -/

/-- The `DiffHunk` named tuple. -/
structure DiffHunk where
  file_path : Str
  old_start : Nat
  old_count : Nat
  new_start : Nat
  new_count : Nat
  lines : List Str
  context_before : List Str
  context_after : List Str

/-- Tail `\s+\w+\s*\(` of the function-signature pattern. -/
def funcSigTail (s : Str) : Bool :=
  ((munch1 isReSpace s).bind fun p1 =>
   (munch1 isWordChar p1.2).bind fun p2 =>
   expectL (strL "(") (p2.2.dropWhile isReSpace)).isSome

/-- After `public`, the greedy `.*` (no newlines) backtracks over every
split of the rest before the required tail — an existence over splits. -/
def publicDotStarTail : Str → Bool
  | [] => funcSigTail []
  | c :: cs => funcSigTail (c :: cs) || (c ≠ '\n' && publicDotStarTail cs)

/-- `re.match(r'(def|function|public.*)\s+\w+\s*\(', line_content)`:
anchored at the start, alternatives tried in order (at most one literal
alternative can match at position zero). -/
def funcSigCheck (s : Str) : Bool :=
  (match expectL (strL "def") s with
   | some rest => funcSigTail rest
   | none => false) ||
  (match expectL (strL "function") s with
   | some rest => funcSigTail rest
   | none => false) ||
  (match expectL (strL "public") s with
   | some rest => publicDotStarTail rest
   | none => false)

/-- `re.match(r'class\s+\w+', line_content)`. -/
def classDefCheck (s : Str) : Bool :=
  ((expectL (strL "class") s).bind fun s1 =>
   (munch1 isReSpace s1).bind fun p2 =>
   munch1 isWordChar p2.2).isSome

/-- `'export' in line_content and any(k in line_content for k in
['function', 'class', 'const', 'let'])`. -/
def exportRemovalCheck (s : Str) : Bool :=
  inStr (strL "export") s &&
    (inStr (strL "function") s || inStr (strL "class") s || inStr (strL "const") s ||
     inStr (strL "let") s)

/-- `any(k in line_content.lower() for k in
['@app.route', '@router', 'app.get', 'app.post'])`. -/
def apiRouteCheck (s : Str) : Bool :=
  inStr (strL "@app.route") (lowerStr s) || inStr (strL "@router") (lowerStr s) ||
  inStr (strL "app.get") (lowerStr s) || inStr (strL "app.post") (lowerStr s)

/-- The message `f"<what>{hunk.file_path}:{hunk.new_start}"`. -/
def taggedMsg (what : String) (file : Str) (line : Nat) : Str :=
  strL what ++ file ++ strL ":" ++ strL (toString line)

/-- Breaking-change messages contributed by one removed line's content
(the four pattern tests are independent; several can fire). -/
def breakingForLine (h : DiffHunk) (lineContent : Str) : List Str :=
  (if funcSigCheck lineContent then
    [taggedMsg "Function signature change in " h.file_path h.new_start] else []) ++
  (if classDefCheck lineContent then
    [taggedMsg "Class definition change in " h.file_path h.new_start] else []) ++
  (if exportRemovalCheck lineContent then
    [taggedMsg "Export removal in " h.file_path h.new_start] else []) ++
  (if apiRouteCheck lineContent then
    [taggedMsg "API endpoint change in " h.file_path h.new_start] else [])

/-- `_detect_breaking_changes`: accumulate over the hunk's removed lines
(`line.startswith('-')`), testing `line[1:].strip()`. -/
def detect_breaking_changes (h : DiffHunk) : List Str :=
  h.lines.foldr
    (fun line acc =>
      if (strL "-").isPrefixOf line then breakingForLine h (pyStrip (line.drop 1)) ++ acc
      else acc) []



/-! ## Diff parsing
Source: `ai_code_reviewer.py`, `GitIntegration.parse_diff_hunks`,
`_create_hunk_with_context`, `_get_context_lines`. -/

/-- Greedy `(\d+)` with its decimal value. -/
def munchDigits (s : Str) : Option (Nat × Str) :=
  match s.takeWhile Char.isDigit with
  | [] => none
  | ds => some (ds.foldl (fun acc c => acc * 10 + (c.toNat - 48)) 0, s.dropWhile Char.isDigit)

/-- The closing `" @@"` of the hunk-header pattern. -/
def hunkClose (o oc n nc : Nat) (s : Str) : Option (Nat × Nat × Nat × Nat) :=
  (expectL (strL " @@") s).map fun _ => (o, oc, n, nc)

/-- `" \+(\d+)(?:,(\d+))? @@"`: the optional comma group is tried first
and dropped on failure; an absent count defaults to 1
(`int(match.group(4) or 1)`). -/
def hunkNewPart (o oc : Nat) (s : Str) : Option (Nat × Nat × Nat × Nat) :=
  (expectL (strL " +") s).bind fun s1 =>
  (munchDigits s1).bind fun p2 =>
  match p2.2 with
  | ',' :: s3 =>
    match munchDigits s3 with
    | some (nc, s4) => (hunkClose o oc p2.1 nc s4).orElse fun _ => hunkClose o oc p2.1 1 p2.2
    | none => hunkClose o oc p2.1 1 p2.2
  | _ => hunkClose o oc p2.1 1 p2.2

/-- The pattern `@@ -(\d+)(?:,(\d+))? \+(\d+)(?:,(\d+))? @@` matched at
the current position; greedy digit runs need no backtracking because a
digit can never follow them in a successful continuation. -/
def matchHunkAt (s : Str) : Option (Nat × Nat × Nat × Nat) :=
  (expectL (strL "@@ -") s).bind fun s1 =>
  (munchDigits s1).bind fun p2 =>
  match p2.2 with
  | ',' :: s3 =>
    match munchDigits s3 with
    | some (oc, s4) => (hunkNewPart p2.1 oc s4).orElse fun _ => hunkNewPart p2.1 1 p2.2
    | none => hunkNewPart p2.1 1 p2.2
  | _ => hunkNewPart p2.1 1 p2.2

/-- `re.search` of the hunk-header pattern: leftmost match in the line. -/
def findHunkHeader : Str → Option (Nat × Nat × Nat × Nat)
  | [] => none
  | c :: cs => (matchHunkAt (c :: cs)).orElse fun _ => findHunkHeader cs

/-- `re.search(r'b/(.+)$', line)`: the text after the leftmost `b/` that is
followed by at least one character (a split line holds no newline, so `.+`
reaches the line end). -/
def extractBPath : Str → Option Str
  | 'b' :: '/' :: c :: cs => some (c :: cs)
  | _ :: cs => extractBPath cs
  | [] => none

/-- `line.startswith('@@')`. -/
def isHunkStart (l : Str) : Bool := (strL "@@").isPrefixOf l

/-- `line.startswith((' ', '+', '-'))`. -/
def isBodyStart (l : Str) : Bool :=
  match l with
  | c :: _ => c = ' ' || c = '+' || c = '-'
  | [] => false

/-- Python list slicing `l[s:e]` on ints: negative indices count from the
end, then both bounds are clamped. -/
def pySlice (l : List Str) (s e : Int) : List Str :=
  let n : Int := l.length
  let s1 := if s < 0 then max 0 (n + s) else min n s
  let e1 := if e < 0 then max 0 (n + e) else min n e
  if s1 < e1 then (l.drop s1.toNat).take (e1 - s1).toNat else []

/-- `GitIntegration._get_context_lines`: slice
`lines[max(0, start_line-1) : min(len(lines), end_line)]` out of the file
content; any read error yields no context. -/
def get_context_lines (env : Env) (f : Str) (startLine endLine : Int) : List Str :=
  match get_file_content env f with
  | .error _ => []
  | .ok content =>
    let lines := splitLines content
    pySlice lines (max 0 (startLine - 1)) (min (lines.length : Int) endLine)

/-- `GitIntegration._create_hunk_with_context`: the hunk with ±10 lines of
context around its new range. -/
def create_hunk_with_context (env : Env) (f : Str) (hi : Nat × Nat × Nat × Nat)
    (hunkLines : List Str) : DiffHunk :=
  ⟨f, hi.1, hi.2.1, hi.2.2.1, hi.2.2.2, hunkLines,
   get_context_lines env f (max 1 ((hi.2.2.1 : Int) - 10)) ((hi.2.2.1 : Int) - 1),
   get_context_lines env f ((hi.2.2.1 : Int) + hi.2.2.2)
     ((hi.2.2.1 : Int) + hi.2.2.2 + 10)⟩

/-- Flush of the in-progress hunk (`hunks.append(...)`): the source guards
with `current_hunk` (and `current_file`, checked at every flushing site or
implied by the branch condition). -/
def flushHunk (env : Env) (cf : Option Str) (ch : Option (Nat × Nat × Nat × Nat))
    (bl : List Str) : List DiffHunk :=
  match cf, ch with
  | some f, some hi => [create_hunk_with_context env f hi bl]
  | _, _ => []

/-- Loop of `parse_diff_hunks`, hunks emitted in encounter order.  A
`diff --git` line flushes the open hunk and resets the state, re-extracting
the `b/` path; an `@@` line (with a current file) flushes the open hunk and
opens a new one when the header regex matches — when it does not, the
source resets neither `current_hunk` nor `hunk_lines`, so the stale hunk
stays open; space/`+`/`-` lines inside an open hunk accumulate; every other
line is ignored. -/
def parseLoop (env : Env) (cf : Option Str) (ch : Option (Nat × Nat × Nat × Nat))
    (bl : List Str) : List Str → List DiffHunk
  | [] => flushHunk env cf ch bl
  | line :: rest =>
    if isFileHeader line then
      flushHunk env cf ch bl ++ parseLoop env (extractBPath line) none [] rest
    else if isHunkStart line && cf.isSome then
      match findHunkHeader line with
      | some hi => flushHunk env cf ch bl ++ parseLoop env cf (some hi) [] rest
      | none => flushHunk env cf ch bl ++ parseLoop env cf ch bl rest
    else if ch.isSome && cf.isSome && isBodyStart line then
      parseLoop env cf ch (bl ++ [line]) rest
    else parseLoop env cf ch bl rest

/-- `GitIntegration.parse_diff_hunks`. -/
def parse_diff_hunks (env : Env) (d : Str) : List DiffHunk :=
  parseLoop env none none [] (splitLines d)

/-- Specification-side definition for the refinement claim C5, written from
the spec's words: the body of a hunk is the sequence of space/`+`/`-` lines
between its header and the next hunk header or file boundary. -/
def takeBody (ls : List Str) : List Str :=
  (ls.takeWhile (fun l => !isHunkStart l && !isFileHeader l)).filter
    (fun l => isBodyStart l)

/-- Specification-side definition for C5: one body-line list per `@@`
header, in order. -/
def specBodies : List Str → List (List Str)
  | [] => []
  | l :: rest => if isHunkStart l then takeBody rest :: specBodies rest else specBodies rest

/-- Number of `@@` hunk headers among the lines. -/
def countHunkHeaders (ls : List Str) : Nat := (ls.filter (fun l => isHunkStart l)).length

/-- Validity of a diff, part 1: every `@@` line matches the header regex. -/
def hunkHeadersOK (ls : List Str) : Bool :=
  ls.all fun l => !isHunkStart l || (findHunkHeader l).isSome

/-- Validity, part 2: every `diff --git` line names a `b/` path. -/
def fileHeadersOK (ls : List Str) : Bool :=
  ls.all fun l => !isFileHeader l || (extractBPath l).isSome

/-- Validity, part 3: every `@@` line comes after some file header (`seen`
records whether one has been scanned). -/
def headersPreceded (seen : Bool) : List Str → Bool
  | [] => true
  | l :: rest => (!isHunkStart l || seen) && headersPreceded (seen || isFileHeader l) rest

/-- An environment in which git always fails and every file is absent. -/
def envEmpty : Env := ⟨fun _ => none, fun _ => FsResult.notFound⟩

/-- Concrete three-hunk diff used as the C5 witness input. -/
def c5Diff : Str :=
  strL "diff --git a/f b/f\n@@ -1,2 +3,4 @@\n+x\n y\njunk\n@@ -7 +8 @@\n-z\ndiff --git a/g b/g\n@@ -1 +1 @@\n+w"


theorem estimate_tokens_eq (s : Str) : estimate_tokens s = s.length / 4 := rfl

theorem splitLinesAux_ne_nil (acc : Str) (s : Str) : splitLinesAux acc s ≠ [] := by
  induction s generalizing acc with
  | nil => simp [splitLinesAux]
  | cons c cs ih =>
    simp only [splitLinesAux]
    split
    · simp
    · exact ih (acc ++ [c])

theorem intercalateNL_cons (l : Str) (rest : List Str) (h : rest ≠ []) :
    intercalateNL (l :: rest) = l ++ '\n' :: intercalateNL rest := by
  cases rest with
  | nil => exact absurd rfl h
  | cons l2 r => rfl

theorem intercalateNL_splitLinesAux (s acc : Str) :
    intercalateNL (splitLinesAux acc s) = acc ++ s := by
  induction s generalizing acc with
  | nil => simp [splitLinesAux, intercalateNL]
  | cons c cs ih =>
    simp only [splitLinesAux]
    split
    · rename_i hc
      rw [intercalateNL_cons _ _ (splitLinesAux_ne_nil [] cs), ih []]
      simp [hc]
    · rw [ih (acc ++ [c])]
      simp

/-- Joining the split lines with newlines reconstructs the original string. -/
theorem intercalateNL_splitLines (s : Str) : intercalateNL (splitLines s) = s := by
  simpa using intercalateNL_splitLinesAux s []

theorem splitLinesAux_noNL (acc : Str) (s : Str) (hacc : '\n' ∉ acc) :
    ∀ l ∈ splitLinesAux acc s, '\n' ∉ l := by
  induction s generalizing acc with
  | nil => simpa [splitLinesAux] using hacc
  | cons c cs ih =>
    simp only [splitLinesAux]
    split
    · intro l hl
      rcases List.mem_cons.mp hl with h | h
      · exact h ▸ hacc
      · exact ih [] (by simp) l h
    · rename_i hc
      intro l hl
      refine ih (acc ++ [c]) ?_ l hl
      simp only [List.mem_append, List.mem_singleton]
      rintro (h | h)
      · exact hacc h
      · exact hc h.symm

theorem splitLines_noNL (s : Str) : ∀ l ∈ splitLines s, '\n' ∉ l :=
  splitLinesAux_noNL [] s (by simp)

theorem splitLinesAux_append_noNL (acc l : Str) (rest : Str) (hl : '\n' ∉ l) :
    splitLinesAux acc (l ++ rest) = splitLinesAux (acc ++ l) rest := by
  induction l generalizing acc with
  | nil => simp
  | cons c cs ih =>
    have hc : c ≠ '\n' := fun h => hl (h ▸ List.mem_cons_self c cs)
    simp only [List.cons_append, splitLinesAux, if_neg hc, List.append_eq]
    rw [ih (acc ++ [c]) (fun h => hl (List.mem_cons_of_mem c h))]
    simp [List.append_assoc]

/-- Splitting is a left inverse of joining, for nonempty line lists whose
lines contain no newline. -/
theorem splitLines_intercalateNL (P : List Str) (hne : P ≠ [])
    (hnl : ∀ l ∈ P, '\n' ∉ l) : splitLines (intercalateNL P) = P := by
  induction P with
  | nil => exact absurd rfl hne
  | cons l rest ih =>
    by_cases hr : rest = []
    · subst hr
      have h2 := splitLinesAux_append_noNL [] l [] (hnl l (by simp))
      simp only [List.append_nil, List.nil_append] at h2
      show splitLinesAux [] l = [l]
      rw [h2]
      rfl
    · rw [intercalateNL_cons l rest hr]
      show splitLinesAux [] (l ++ '\n' :: intercalateNL rest) = l :: rest
      rw [splitLinesAux_append_noNL [] l _ (hnl l (by simp))]
      have h3 : splitLinesAux ([] ++ l) ('\n' :: intercalateNL rest) =
          ([] ++ l) :: splitLinesAux [] (intercalateNL rest) := by
        simp [splitLinesAux]
      have h4 := ih hr (fun x hx => hnl x (List.mem_cons_of_mem l hx))
      simp only [splitLines] at h4
      rw [h3, h4]
      simp

theorem chunkAux_flatten (mx : Nat) (rest : List Str) :
    ∀ cur tok, (chunkAux mx cur tok rest).flatten = cur ++ rest := by
  induction rest with
  | nil =>
    intro cur tok
    by_cases h : cur.isEmpty
    · simp [chunkAux, h, List.isEmpty_iff.mp h]
    · simp [chunkAux, h]
  | cons line rs ih =>
    intro cur tok
    simp only [chunkAux]
    split
    · rename_i h1
      have h2 : ¬ (decide (0 + estimate_tokens line > mx) && !(List.isEmpty ([] : List Str))) = true := by
        simp
      simp [h2, ih]
    · rename_i h1
      split
      · simp [ih]
      · simp [ih]

theorem chunkAux_ne_nil (mx : Nat) (rest : List Str) :
    ∀ cur tok c, c ∈ chunkAux mx cur tok rest → c ≠ [] := by
  induction rest with
  | nil =>
    intro cur tok c hc
    by_cases h : cur.isEmpty
    · simp [chunkAux, h] at hc
    · simp only [chunkAux, if_neg h, List.mem_singleton] at hc
      subst hc
      exact fun hnil => h (by simp [hnil])
  | cons line rs ih =>
    intro cur tok c hc
    simp only [chunkAux] at hc
    revert hc
    split
    · rename_i h1
      have hcur : ¬ cur.isEmpty := by
        rcases Bool.and_eq_true_iff.mp h1 with ⟨-, h⟩
        simpa using h
      have h2 : ¬ (decide (0 + estimate_tokens line > mx) && !(List.isEmpty ([] : List Str))) = true := by
        simp
      simp only [h2, if_neg, List.nil_append, if_false]
      intro hc
      rcases List.mem_append.mp hc with h | h
      · rcases List.mem_singleton.mp h with rfl
        exact fun hnil => hcur (by simp [hnil])
      · exact ih _ _ _ h
    · rename_i h1
      split
      · rename_i h2
        have hcur : ¬ cur.isEmpty := by
          rcases Bool.and_eq_true_iff.mp h2 with ⟨-, h⟩
          simpa using h
        simp only [List.nil_append]
        intro hc
        rcases List.mem_append.mp hc with h | h
        · rcases List.mem_singleton.mp h with rfl
          exact fun hnil => hcur (by simp [hnil])
        · exact ih _ _ _ h
      · simp only [List.nil_append]
        exact fun hc => ih _ _ _ hc

theorem intercalateNL_append (a b : List Str) (ha : a ≠ []) (hb : b ≠ []) :
    intercalateNL (a ++ b) = intercalateNL a ++ '\n' :: intercalateNL b := by
  induction a with
  | nil => exact absurd rfl ha
  | cons l rs ih =>
    by_cases hr : rs = []
    · subst hr
      simp [intercalateNL_cons l b hb, intercalateNL]
    · have hab : rs ++ b ≠ [] := fun h => hr (List.append_eq_nil.mp h).1
      rw [List.cons_append, intercalateNL_cons l (rs ++ b) hab, ih hr,
        intercalateNL_cons l rs hr]
      simp

theorem intercalateNL_map_flatten (P : List (List Str)) (h : ∀ c ∈ P, c ≠ []) :
    intercalateNL (P.map intercalateNL) = intercalateNL P.flatten := by
  induction P with
  | nil => rfl
  | cons c rest ih =>
    by_cases hr : rest = []
    · subst hr
      simp [intercalateNL]
    · have hc : c ≠ [] := h c (by simp)
      have hrest : ∀ x ∈ rest, x ≠ [] := fun x hx => h x (List.mem_cons_of_mem c hx)
      have hjoin : rest.flatten ≠ [] := by
        cases rest with
        | nil => exact absurd rfl hr
        | cons y ys =>
          have hy : y ≠ [] := hrest y (by simp)
          simp only [List.flatten_cons]
          exact fun hnil => hy (List.append_eq_nil.mp hnil).1
      have hmap : rest.map intercalateNL ≠ [] := by
        simpa using hr
      rw [List.map_cons, intercalateNL_cons _ _ hmap, ih hrest, List.flatten_cons,
        intercalateNL_append c rest.flatten hc hjoin]

/-- C10: joining the chunks returned by `_chunk_diff` with single newlines
reconstructs the input diff exactly — chunking partitions the line sequence
in order, losing no line and duplicating none. -/
theorem C10_chunk_diff_rejoin (mx : Nat) (d : Str) :
    intercalateNL (chunk_diff mx d) = d := by
  unfold chunk_diff
  split
  · rfl
  · rw [intercalateNL_map_flatten _ (fun c hc => chunkAux_ne_nil mx _ _ _ c hc),
      chunkAux_flatten, List.nil_append, intercalateNL_splitLines]

/-- C4: a diff whose estimated token count is at most the safe threshold of
80000 is returned as exactly one chunk, verbatim. -/
theorem C4_chunk_small_verbatim (d : Str) (h : estimate_tokens d ≤ 80000) :
    chunk_diff 80000 d = [d] := by
  simp [chunk_diff, h]

/-- Witness for C4 at the concrete diff `"+x"`. -/
theorem C4_chunk_small_verbatim_witness :
    estimate_tokens (strL "+x") ≤ 80000 ∧ chunk_diff 80000 (strL "+x") = [strL "+x"] :=
  ⟨by decide, C4_chunk_small_verbatim (strL "+x") (by decide)⟩

theorem sum_map_div4_le (ns : List Nat) : (ns.map (fun a => a / 4)).sum ≤ ns.sum / 4 := by
  induction ns with
  | nil => simp
  | cons a rest ih =>
    simp only [List.map_cons, List.sum_cons]
    calc a / 4 + (rest.map (fun a => a / 4)).sum ≤ a / 4 + rest.sum / 4 :=
          Nat.add_le_add_left ih _
      _ ≤ (a + rest.sum) / 4 := Nat.add_div_le_add_div _ _ _

theorem sum_length_le_intercalateNL (P : List Str) :
    (P.map List.length).sum ≤ (intercalateNL P).length := by
  induction P with
  | nil => simp
  | cons l rest ih =>
    by_cases hr : rest = []
    · subst hr
      simp [intercalateNL]
    · rw [intercalateNL_cons l rest hr]
      simp only [List.map_cons, List.sum_cons, List.length_append, List.length_cons]
      omega

theorem sum_est_splitLines_le (s : Str) :
    ((splitLines s).map estimate_tokens).sum ≤ estimate_tokens s := by
  have h1 : (splitLines s).map estimate_tokens
      = ((splitLines s).map List.length).map (fun a => a / 4) := by
    simp [estimate_tokens, List.map_map]
  rw [h1]
  calc (((splitLines s).map List.length).map (fun a => a / 4)).sum
      ≤ ((splitLines s).map List.length).sum / 4 := sum_map_div4_le _
    _ ≤ (intercalateNL (splitLines s)).length / 4 :=
        Nat.div_le_div_right (sum_length_le_intercalateNL _)
    _ = estimate_tokens s := by rw [intercalateNL_splitLines]; rfl

theorem chunkAux_sum_bound (mx : Nat) (rest : List Str) :
    ∀ cur tok, tok = (cur.map estimate_tokens).sum → (2 ≤ cur.length → tok ≤ mx) →
    ∀ c ∈ chunkAux mx cur tok rest, 2 ≤ c.length → (c.map estimate_tokens).sum ≤ mx := by
  induction rest with
  | nil =>
    intro cur tok htok hinv c hc hlen
    by_cases h : cur.isEmpty
    · simp [chunkAux, h] at hc
    · simp only [chunkAux, if_neg h, List.mem_singleton] at hc
      subst hc
      exact htok ▸ hinv hlen
  | cons line rs ih =>
    intro cur tok htok hinv c hc hlen
    simp only [chunkAux] at hc
    revert hc
    split
    · rename_i h1
      have h2 : ¬ (decide (0 + estimate_tokens line > mx) && !(List.isEmpty ([] : List Str))) = true := by
        simp
      simp only [h2, if_neg, List.nil_append, if_false]
      intro hc
      rcases List.mem_append.mp hc with h | h
      · rcases List.mem_singleton.mp h with rfl
        exact htok ▸ hinv hlen
      · refine ih ([] ++ [line]) (0 + estimate_tokens line) (by simp) (by simp) c h hlen
    · rename_i h1
      split
      · rename_i h2
        simp only [List.nil_append]
        intro hc
        rcases List.mem_append.mp hc with h | h
        · rcases List.mem_singleton.mp h with rfl
          exact htok ▸ hinv hlen
        · refine ih ([] ++ [line]) (0 + estimate_tokens line) (by simp) (by simp) c h hlen
      · rename_i h2
        simp only [List.nil_append]
        intro hc
        refine ih (cur ++ [line]) (tok + estimate_tokens line)
          (by simp [htok]) ?_ c hc hlen
        intro hlen2
        have hcur : cur ≠ [] := by
          intro hnil
          subst hnil
          simp at hlen2
        have hne : (!cur.isEmpty) = true := by
          cases cur with
          | nil => exact absurd rfl hcur
          | cons a as => rfl
        by_contra hgt
        apply h2
        rw [hne, Bool.and_true]
        exact decide_eq_true (by omega)

theorem splitLines_of_noNL (s : Str) (h : '\n' ∉ s) : splitLines s = [s] := by
  have h2 := splitLinesAux_append_noNL [] s [] h
  simp only [List.append_nil, List.nil_append] at h2
  show splitLinesAux [] s = [s]
  rw [h2]
  rfl

/-- C3 (amended): every chunk produced by `_chunk_diff` under the default
80000-token budget that spans at least two lines has the sum of its lines'
individual token estimates at most the budget; a single-line chunk may
exceed the budget, and the chunk's own character-based estimate may exceed
it because joining newlines and per-line flooring are not counted. -/
theorem C3_chunk_line_sum_bound (d : Str) (c : Str) (hc : c ∈ chunk_diff 80000 d)
    (hlen : 2 ≤ (splitLines c).length) :
    ((splitLines c).map estimate_tokens).sum ≤ 80000 := by
  unfold chunk_diff at hc
  split at hc
  · rename_i hsmall
    rcases List.mem_singleton.mp hc with rfl
    exact le_trans (sum_est_splitLines_le c) hsmall
  · rcases List.mem_map.mp hc with ⟨cl, hcl, rfl⟩
    have hclne : cl ≠ [] := chunkAux_ne_nil 80000 _ _ _ cl hcl
    have hclnl : ∀ l ∈ cl, '\n' ∉ l := by
      intro l hl
      have hmem : l ∈ (chunkAux 80000 [] 0 (splitLines d)).flatten :=
        List.mem_flatten.mpr ⟨cl, hcl, hl⟩
      rw [chunkAux_flatten, List.nil_append] at hmem
      exact splitLines_noNL d l hmem
    rw [splitLines_intercalateNL cl hclne hclnl] at hlen ⊢
    exact chunkAux_sum_bound 80000 _ [] 0 rfl (by simp) cl hcl hlen

/-- Witness for C3 (amended) at the two-line diff `"a\nb"`. -/
theorem C3_chunk_line_sum_bound_witness :
    strL "a\nb" ∈ chunk_diff 80000 (strL "a\nb") ∧
    2 ≤ (splitLines (strL "a\nb")).length ∧
    ((splitLines (strL "a\nb")).map estimate_tokens).sum ≤ 80000 :=
  ⟨by decide, by decide, C3_chunk_line_sum_bound (strL "a\nb") _ (by decide) (by decide)⟩

/-- C3 counterexample: a diff that is one 320004-character line estimates to
80001 tokens, above the safe budget, yet `_chunk_diff` returns it as a single
chunk whose estimated token count is 80001, not under the budget.  The claim
"every chunk stays under the budget" is therefore false on the code. -/
theorem C3_counterexample :
    80000 < estimate_tokens (List.replicate 320004 'a') ∧
    chunk_diff 80000 (List.replicate 320004 'a') = [List.replicate 320004 'a'] ∧
    ¬ estimate_tokens (List.replicate 320004 'a') < 80000 := by
  have hnl : '\n' ∉ List.replicate 320004 'a' := by
    intro h
    have := (List.eq_of_mem_replicate h)
    simp at this
  have hest : estimate_tokens (List.replicate 320004 'a') = 80001 := by
    rw [estimate_tokens_eq, List.length_replicate 320004 'a']
  have hsplit : splitLines (List.replicate 320004 'a') = [List.replicate 320004 'a'] :=
    splitLines_of_noNL _ hnl
  refine ⟨by omega, ?_, by omega⟩
  unfold chunk_diff
  rw [if_neg (by omega), hsplit]
  have haux : chunkAux 80000 [] 0 [List.replicate 320004 'a'] =
      [[List.replicate 320004 'a']] := by
    simp only [chunkAux, List.isEmpty_nil, Bool.not_true, Bool.and_false,
      Bool.false_eq_true, if_false, List.nil_append, List.isEmpty_cons,
      List.append_nil]
  rw [haux]
  rfl

/-- C1: evaluated at the sixteen-file diff `c1Diff`, `_filter_important_files`
with the configured maximum of 15 keeps 15 files but discards `auth`, the one
file whose keyword score (the score the claim describes) strictly exceeds the
score of every kept file.  The score the source computes is lost: files saved
at the next header are stored with priority 0, the final file with priority 1,
and the sort key `(priority, -size)` under `reverse=True` orders equal
priorities by ascending size, so the largest tied file is dropped first. -/
theorem C1_filter_drops_high_priority_file :
    (filterKeptNames c1Diff 15).length = 15 ∧
    strL "auth" ∉ filterKeptNames c1Diff 15 ∧
    ∀ n ∈ filterKeptNames c1Diff 15, filePriority n < filePriority (strL "auth") := by
  decide

theorem tryFallbacks_eq (ps : List (Str × Option Str)) (fbs : List Str) :
    tryFallbacks ps fbs =
      (match firstSuccess ps (fbs.filter (fun f => (dictGet ps f).isSome)) with
       | some r => Except.ok r
       | none => Except.error ()) := by
  induction fbs with
  | nil => rfl
  | cons f rest ih =>
    cases h : dictGet ps f with
    | none => simp [tryFallbacks, h, List.filter_cons, ih]
    | some b =>
      cases b with
      | none => simp [tryFallbacks, h, List.filter_cons, firstSuccess, ih]
      | some r => simp [tryFallbacks, h, List.filter_cons, firstSuccess]

/-- C2 (amended): `_review_single_chunk` returns the first success among the
providers it attempts — the primary when registered, then each registered
fallback in configured order — and raises `ProviderException` exactly when
every attempted provider fails; with an empty registry the attempt list is
empty, so it raises before any provider call. -/
theorem C2_first_success_or_raise (o : Orchestrator) :
    review_single_chunk o =
      (match firstSuccess o.providers (attemptList o) with
       | some r => Except.ok r
       | none => Except.error ()) ∧
    (o.providers = [] → attemptList o = [] ∧ review_single_chunk o = Except.error ()) := by
  obtain ⟨prim, fbs, ps⟩ := o
  constructor
  · show review_single_chunk ⟨prim, fbs, ps⟩ = _
    unfold review_single_chunk attemptList
    cases h : dictGet ps prim with
    | none => simp [h, tryFallbacks_eq]
    | some b =>
      cases b with
      | some r => simp [h, firstSuccess]
      | none => simp [h, firstSuccess, tryFallbacks_eq]
  · intro hempty
    simp only at hempty
    subst hempty
    constructor
    · simp [attemptList, dictGet]
    · show review_single_chunk ⟨prim, fbs, []⟩ = Except.error ()
      unfold review_single_chunk
      rw [show dictGet [] prim = none from rfl]
      rw [tryFallbacks_eq]
      simp [dictGet, firstSuccess]

/-- C2 counterexample: a registry holding one always-succeeding provider
that is neither primary nor fallback.  `_review_single_chunk` raises even
though a registered provider succeeds, refuting "raises iff no registered
provider succeeds". -/
theorem C2_counterexample :
    review_single_chunk ⟨strL "p", [], [(strL "x", some (strL "r"))]⟩ = Except.error () ∧
    (strL "x", some (strL "r")) ∈
      (Orchestrator.mk (strL "p") [] [(strL "x", some (strL "r"))]).providers :=
  ⟨rfl, List.mem_singleton.mpr rfl⟩

/-- Witness for C2 at a concrete empty registry. -/
theorem C2_witness :
    attemptList ⟨strL "claude", [strL "openai"], []⟩ = [] ∧
    review_single_chunk ⟨strL "claude", [strL "openai"], []⟩ = Except.error () :=
  (C2_first_success_or_raise ⟨strL "claude", [strL "openai"], []⟩).2 rfl

/-- C6: when structured JSON decoding of the cleaned response text fails,
`_parse_review_response` returns exactly the single synthetic fallback
finding, whose severity is `info` and category is `system`; it never returns
an empty list on that path and, being a total function, lets no exception
escape. -/
theorem C6_parse_failure_fallback (jloads : Str → DecodeOutcome) (raw : Str)
    (h : jloads (cleanResponse raw) = DecodeOutcome.jsonError) :
    parse_review_response jloads raw = [fallbackReview] ∧
    fallbackReview.severity = "info" ∧ fallbackReview.category = "system" := by
  refine ⟨?_, rfl, rfl⟩
  unfold parse_review_response
  rw [h]
  rfl

/-- Witness for C6 at the concrete input `"no json here at all"` and a
decoder that reports a JSON decode error on it. -/
theorem C6_parse_failure_fallback_witness :
    (fun _ : Str => DecodeOutcome.jsonError) (cleanResponse (strL "no json here at all")) =
      DecodeOutcome.jsonError ∧
    parse_review_response (fun _ => DecodeOutcome.jsonError) (strL "no json here at all") =
      [fallbackReview] :=
  ⟨rfl, (C6_parse_failure_fallback (fun _ => DecodeOutcome.jsonError)
    (strL "no json here at all") rfl).1⟩

theorem foldl_buckets (files : List Str) (acc : String → List Str) :
    files.foldl
      (fun st f =>
        match categoryOf f with
        | some c => bucketAppend st c f
        | none => st)
      (structureCategories.map (fun c => (c, acc c))) =
    structureCategories.map
      (fun c => (c, acc c ++ files.filter (fun f => categoryOf f = some c))) := by
  induction files generalizing acc with
  | nil => simp
  | cons f rest ih =>
    simp only [List.foldl_cons]
    cases hcat : categoryOf f with
    | none =>
      rw [ih acc]
      refine congrArg (fun g => List.map g structureCategories) (funext fun c => ?_)
      rw [List.filter_cons, if_neg (by simp [hcat])]
    | some c0 =>
      have hb : bucketAppend (structureCategories.map (fun c => (c, acc c))) c0 f =
          structureCategories.map
            (fun c => (c, if c = c0 then acc c ++ [f] else acc c)) := by
        unfold bucketAppend
        rw [List.map_map]
        refine congrArg (fun g => List.map g structureCategories) (funext fun c => ?_)
        by_cases h : c = c0
        · simp [h]
        · simp [h]
      show List.foldl _ (bucketAppend (structureCategories.map (fun c => (c, acc c))) c0 f)
        rest = _
      rw [hb, ih]
      refine congrArg (fun g => List.map g structureCategories) (funext fun c => ?_)
      by_cases h : c = c0
      · subst h
        simp [List.filter_cons, hcat]
      · simp [List.filter_cons, hcat, h, Ne.symm h]

/-- C9 (amended): `_analyze_project_structure` assigns every file to at most
one category using first-matching-rule-wins over the fixed order Frontend,
Backend, Database, Configuration, Tests, Documentation, Build/Deploy,
Assets; a file matching no rule is dropped entirely (the chain has no
`else`), so the union of the returned buckets is the set of files matching
some rule, not necessarily the whole input.  Buckets are pairwise disjoint,
keep input order, and empty categories are omitted. -/
theorem C9_structure_buckets (allFiles : List Str) :
    analyze_project_structure allFiles =
      (structureCategories.map
        (fun c => (c, allFiles.filter (fun f => categoryOf f = some c)))).filter
        (fun p => !p.2.isEmpty) ∧
    (∀ c1 l1 c2 l2 f, (c1, l1) ∈ analyze_project_structure allFiles →
      (c2, l2) ∈ analyze_project_structure allFiles → f ∈ l1 → f ∈ l2 → c1 = c2) ∧
    (∀ p ∈ analyze_project_structure allFiles, p.2 ≠ []) := by
  have hmain : analyze_project_structure allFiles =
      (structureCategories.map
        (fun c => (c, allFiles.filter (fun f => categoryOf f = some c)))).filter
        (fun p => !p.2.isEmpty) := by
    unfold analyze_project_structure bucketsInit
    rw [foldl_buckets allFiles (fun _ => [])]
    simp
  refine ⟨hmain, ?_, ?_⟩
  · intro c1 l1 c2 l2 f h1 h2 hf1 hf2
    rw [hmain] at h1 h2
    have h1m := List.mem_filter.mp h1
    have h2m := List.mem_filter.mp h2
    rcases List.mem_map.mp h1m.1 with ⟨ca, -, hca⟩
    rcases List.mem_map.mp h2m.1 with ⟨cb, -, hcb⟩
    have e1 : c1 = ca ∧ l1 = allFiles.filter (fun f => categoryOf f = some ca) := by
      constructor
      · exact (Prod.mk.injEq _ _ _ _ ▸ hca.symm : _ ∧ _).1
      · exact (Prod.mk.injEq _ _ _ _ ▸ hca.symm : _ ∧ _).2
    have e2 : c2 = cb ∧ l2 = allFiles.filter (fun f => categoryOf f = some cb) := by
      constructor
      · exact (Prod.mk.injEq _ _ _ _ ▸ hcb.symm : _ ∧ _).1
      · exact (Prod.mk.injEq _ _ _ _ ▸ hcb.symm : _ ∧ _).2
    rw [e1.2] at hf1
    rw [e2.2] at hf2
    have hc1 : categoryOf f = some ca := by
      have := (List.mem_filter.mp hf1).2
      simpa using this
    have hc2 : categoryOf f = some cb := by
      have := (List.mem_filter.mp hf2).2
      simpa using this
    rw [e1.1, e2.1]
    exact Option.some.inj (hc1 ▸ hc2)
  · intro p hp
    rw [hmain] at hp
    have := (List.mem_filter.mp hp).2
    simpa using this

/-- C9 counterexample: `main.cpp` matches no categorization rule, so the
categorizer returns no buckets at all for the one-file input — the union of
the returned buckets is not the whole input file list and `main.cpp` is
assigned to zero categories, not exactly one. -/
theorem C9_counterexample :
    analyze_project_structure [strL "main.cpp"] = [] ∧
    categoryOf (strL "main.cpp") = none := by
  decide

/-- Witness for C9 (amended): at the one-file input `a.py` the disjointness
part of the theorem applies with all membership hypotheses discharged
concretely. -/
theorem C9_structure_buckets_witness :
    ("Backend", [strL "a.py"]) ∈ analyze_project_structure [strL "a.py"] ∧
    strL "a.py" ∈ [strL "a.py"] ∧ ("Backend" : String) = "Backend" :=
  ⟨by decide, by decide,
    (C9_structure_buckets [strL "a.py"]).2.1 "Backend" [strL "a.py"] "Backend" [strL "a.py"]
      (strL "a.py") (by decide) (by decide) (by decide) (by decide)⟩

theorem extract_imports_nil (lang : String) : extract_imports [] lang = [] := by
  unfold extract_imports
  repeat' split
  all_goals rfl

theorem extract_functions_nil (lang : String) : extract_functions [] lang = [] := by
  unfold extract_functions
  repeat' split
  all_goals rfl

theorem extract_classes_nil (lang : String) : extract_classes [] lang = [] := by
  unfold extract_classes
  repeat' split
  all_goals rfl

/-- C7 (amended): the extractor never raises; a decode error yields the
`unknown`-language context with empty collections and zero lines, while a
missing file is read back as empty content, so its language comes from the
extension table (it is not forced to `unknown`), its import/function/class
lists are empty and its line count is 1. -/
theorem C7_unreadable_file_context (env : Env) (p : Str) (hgit : env.git p = none) :
    (env.fs p = FsResult.decodeError →
      get_file_context env p = ⟨p, "unknown", [], [], [], 0⟩) ∧
    (env.fs p = FsResult.notFound →
      get_file_context env p = ⟨p, detect_language p, [], [], [], 1⟩) := by
  constructor
  · intro hfs
    have h1 : get_file_content env p = Except.error () := by
      unfold get_file_content
      rw [hgit, hfs]
    unfold get_file_context
    rw [h1]
  · intro hfs
    have h1 : get_file_content env p = Except.ok [] := by
      unfold get_file_content
      rw [hgit, hfs]
    unfold get_file_context
    rw [h1]
    show (⟨p, detect_language p, extract_imports [] (detect_language p),
      extract_functions [] (detect_language p), extract_classes [] (detect_language p),
      (splitLines []).length⟩ : FileContext) = _
    rw [extract_imports_nil, extract_functions_nil, extract_classes_nil]
    rfl

/-- C7 counterexample: a missing `.py` file (git fails, the working-tree
read raises `FileNotFoundError`) produces a context whose language is
`python`, detected from the extension — not `unknown` as the claim says. -/
theorem C7_counterexample :
    (get_file_context ⟨fun _ => none, fun _ => FsResult.notFound⟩ (strL "missing.py")).language
      = "python" ∧ ("python" : String) ≠ "unknown" := by
  exact ⟨rfl, by decide⟩

/-- Witness for C7 (amended) at a concrete environment where every git call
fails and every file is missing. -/
theorem C7_unreadable_file_context_witness :
    (⟨fun _ => none, fun _ => FsResult.notFound⟩ : Env).git (strL "missing.py") = none ∧
    (⟨fun _ => none, fun _ => FsResult.notFound⟩ : Env).fs (strL "missing.py") =
      FsResult.notFound ∧
    get_file_context ⟨fun _ => none, fun _ => FsResult.notFound⟩ (strL "missing.py") =
      ⟨strL "missing.py", detect_language (strL "missing.py"), [], [], [], 1⟩ :=
  ⟨rfl, rfl,
    (C7_unreadable_file_context ⟨fun _ => none, fun _ => FsResult.notFound⟩
      (strL "missing.py") rfl).2 rfl⟩

theorem breaking_foldr_none (h : DiffHunk) (ls : List Str)
    (hf : ls.filter (fun l => (strL "-").isPrefixOf l) = []) :
    ls.foldr
      (fun line acc =>
        if (strL "-").isPrefixOf line then breakingForLine h (pyStrip (line.drop 1)) ++ acc
        else acc) [] = [] := by
  induction ls with
  | nil => rfl
  | cons l rest ih =>
    rw [List.filter_cons] at hf
    by_cases hp : ((strL "-").isPrefixOf l) = true
    · simp [hp] at hf
    · simp only [List.foldr_cons]
      rw [if_neg (by simp [hp])]
      apply ih
      simpa [hp] using hf

theorem breaking_foldr_single (h : DiffHunk) (ls : List Str)
    (hf : ls.filter (fun l => (strL "-").isPrefixOf l) = [strL "-def foo(x):"]) :
    ls.foldr
      (fun line acc =>
        if (strL "-").isPrefixOf line then breakingForLine h (pyStrip (line.drop 1)) ++ acc
        else acc) [] =
      breakingForLine h (pyStrip ((strL "-def foo(x):").drop 1)) := by
  induction ls with
  | nil => simp at hf
  | cons l rest ih =>
    rw [List.filter_cons] at hf
    by_cases hp : ((strL "-").isPrefixOf l) = true
    · rw [if_pos hp] at hf
      obtain ⟨hl, hrest⟩ := List.cons_eq_cons.mp hf
      simp only [List.foldr_cons]
      rw [if_pos hp, hl, breaking_foldr_none h rest hrest, List.append_nil]
    · rw [if_neg hp] at hf
      simp only [List.foldr_cons]
      rw [if_neg hp]
      exact ih hf

/-- C8: a hunk whose only removed line is `-def foo(x):` produces exactly
the function-signature breaking-change message, which carries the hunk's
file path and new-range start line. -/
theorem C8_removed_def_breaking_change (h : DiffHunk)
    (honly : h.lines.filter (fun l => (strL "-").isPrefixOf l) = [strL "-def foo(x):"]) :
    detect_breaking_changes h =
      [taggedMsg "Function signature change in " h.file_path h.new_start] := by
  unfold detect_breaking_changes
  rw [breaking_foldr_single h h.lines honly]
  have c1 : funcSigCheck (pyStrip ((strL "-def foo(x):").drop 1)) = true := by decide
  have c2 : classDefCheck (pyStrip ((strL "-def foo(x):").drop 1)) = false := by decide
  have c3 : exportRemovalCheck (pyStrip ((strL "-def foo(x):").drop 1)) = false := by decide
  have c4 : apiRouteCheck (pyStrip ((strL "-def foo(x):").drop 1)) = false := by decide
  simp only [List.drop_one] at c1 c2 c3 c4
  simp [breakingForLine, c1, c2, c3, c4]

/-- Witness for C8 at a concrete hunk for `a.py` with new-range start 5. -/
theorem C8_removed_def_breaking_change_witness :
    (DiffHunk.mk (strL "a.py") 1 1 5 2 [strL "-def foo(x):", strL "+def foo(x, y):"]
      [] []).lines.filter (fun l => (strL "-").isPrefixOf l) = [strL "-def foo(x):"] ∧
    detect_breaking_changes
      (DiffHunk.mk (strL "a.py") 1 1 5 2 [strL "-def foo(x):", strL "+def foo(x, y):"] [] []) =
      [taggedMsg "Function signature change in " (strL "a.py") 5] :=
  ⟨by decide,
    C8_removed_def_breaking_change
      (DiffHunk.mk (strL "a.py") 1 1 5 2 [strL "-def foo(x):", strL "+def foo(x, y):"] [] [])
      (by decide)⟩

theorem fileHeader_not_hunkStart (l : Str) (h : isFileHeader l = true) :
    isHunkStart l = false := by
  cases l with
  | nil => exact absurd h (by decide)
  | cons c cs =>
    have hd : ('d' == c) = true := by
      have hexp : isFileHeader (c :: cs) =
          (('d' == c) && (strL "iff --git").isPrefixOf cs) := rfl
      rw [hexp] at h
      exact (Bool.and_eq_true_iff.mp h).1
    have hc : c = 'd' := (beq_iff_eq.mp hd).symm
    subst hc
    have hexp2 : isHunkStart ('d' :: cs) = (('@' == 'd') && (strL "@").isPrefixOf cs) := rfl
    have hne : ('@' == 'd') = false := by decide
    rw [hexp2, hne, Bool.false_and]

theorem takeBody_nil : takeBody [] = [] := rfl

theorem takeBody_cons_stop (l : Str) (ls : List Str)
    (h : (!isHunkStart l && !isFileHeader l) = false) : takeBody (l :: ls) = [] := by
  unfold takeBody
  rw [List.takeWhile_cons, if_neg (by simp [h])]
  rfl

theorem takeBody_cons_keep (l : Str) (ls : List Str)
    (h : (!isHunkStart l && !isFileHeader l) = true) :
    takeBody (l :: ls) = if isBodyStart l = true then l :: takeBody ls else takeBody ls := by
  unfold takeBody
  rw [List.takeWhile_cons, if_pos h, List.filter_cons]

theorem specBodies_cons_hunk (l : Str) (ls : List Str) (h : isHunkStart l = true) :
    specBodies (l :: ls) = takeBody ls :: specBodies ls := by
  show (if isHunkStart l then takeBody ls :: specBodies ls else specBodies ls) = _
  rw [if_pos h]

theorem specBodies_cons_other (l : Str) (ls : List Str) (h : isHunkStart l = false) :
    specBodies (l :: ls) = specBodies ls := by
  show (if isHunkStart l then takeBody ls :: specBodies ls else specBodies ls) = _
  rw [if_neg (by simp [h])]

theorem specBodies_length (ls : List Str) : (specBodies ls).length = countHunkHeaders ls := by
  induction ls with
  | nil => rfl
  | cons l rest ih =>
    unfold countHunkHeaders
    rw [List.filter_cons]
    cases h : isHunkStart l with
    | true =>
      rw [specBodies_cons_hunk l rest h, if_pos rfl]
      simp only [List.length_cons]
      rw [ih]
      rfl
    | false =>
      rw [specBodies_cons_other l rest h, if_neg (by simp)]
      rw [ih]
      rfl

theorem parseLoop_cons_file (env : Env) (cf : Option Str)
    (ch : Option (Nat × Nat × Nat × Nat)) (bl : List Str) (line : Str) (rest : List Str)
    (h : isFileHeader line = true) :
    parseLoop env cf ch bl (line :: rest) =
      flushHunk env cf ch bl ++ parseLoop env (extractBPath line) none [] rest := by
  conv_lhs => unfold parseLoop
  rw [if_pos h]

theorem parseLoop_cons_hunk (env : Env) (f : Str) (ch : Option (Nat × Nat × Nat × Nat))
    (bl : List Str) (line : Str) (rest : List Str) (hi : Nat × Nat × Nat × Nat)
    (hf : isFileHeader line = false) (hh : isHunkStart line = true)
    (hfind : findHunkHeader line = some hi) :
    parseLoop env (some f) ch bl (line :: rest) =
      flushHunk env (some f) ch bl ++ parseLoop env (some f) (some hi) [] rest := by
  conv_lhs => unfold parseLoop
  rw [if_neg (by simp [hf]), if_pos (by simp [hh]), hfind]

theorem parseLoop_cons_body (env : Env) (f : Str) (hi : Nat × Nat × Nat × Nat)
    (bl : List Str) (line : Str) (rest : List Str)
    (hf : isFileHeader line = false) (hh : isHunkStart line = false)
    (hb : isBodyStart line = true) :
    parseLoop env (some f) (some hi) bl (line :: rest) =
      parseLoop env (some f) (some hi) (bl ++ [line]) rest := by
  conv_lhs => unfold parseLoop
  rw [if_neg (by simp [hf]), if_neg (by simp [hh]), if_pos (by simp [hb])]

theorem parseLoop_cons_skip_open (env : Env) (f : Str) (hi : Nat × Nat × Nat × Nat)
    (bl : List Str) (line : Str) (rest : List Str)
    (hf : isFileHeader line = false) (hh : isHunkStart line = false)
    (hb : isBodyStart line = false) :
    parseLoop env (some f) (some hi) bl (line :: rest) =
      parseLoop env (some f) (some hi) bl rest := by
  conv_lhs => unfold parseLoop
  rw [if_neg (by simp [hf]), if_neg (by simp [hh]), if_neg (by simp [hb])]

theorem parseLoop_cons_skip_closed (env : Env) (cf : Option Str) (bl : List Str)
    (line : Str) (rest : List Str) (hf : isFileHeader line = false)
    (hcond : (isHunkStart line && cf.isSome) = false) :
    parseLoop env cf none bl (line :: rest) = parseLoop env cf none bl rest := by
  conv_lhs => unfold parseLoop
  rw [if_neg (by simp [hf]), if_neg (by simp [hcond]), if_neg (by simp)]

theorem parseLoop_map_lines (env : Env) (rest : List Str) :
    ∀ (f : Str) (ch : Option (Nat × Nat × Nat × Nat)) (bl : List Str),
    hunkHeadersOK rest = true → fileHeadersOK rest = true →
    (parseLoop env (some f) ch bl rest).map (fun h => h.lines) =
      (match ch with
       | some _ => (bl ++ takeBody rest) :: specBodies rest
       | none => specBodies rest) := by
  induction rest with
  | nil =>
    intro f ch bl _ _
    cases ch with
    | none => rfl
    | some hi =>
      show (flushHunk env (some f) (some hi) bl).map (fun h => h.lines) = _
      simp [flushHunk, create_hunk_with_context, takeBody, specBodies]
  | cons line rs ih =>
    intro f ch bl hHa hFa
    simp only [hunkHeadersOK, List.all_cons, Bool.and_eq_true] at hHa
    simp only [fileHeadersOK, List.all_cons, Bool.and_eq_true] at hFa
    have hHr : hunkHeadersOK rs = true := hHa.2
    have hFr : fileHeadersOK rs = true := hFa.2
    cases hFile : isFileHeader line with
    | true =>
      have hBP : (extractBPath line).isSome = true := by
        have h1 := hFa.1
        rw [hFile] at h1
        simpa using h1
      obtain ⟨f2, hf2⟩ := Option.isSome_iff_exists.mp hBP
      have hNH : isHunkStart line = false := fileHeader_not_hunkStart line hFile
      rw [parseLoop_cons_file env (some f) ch bl line rs hFile, hf2, List.map_append,
        ih f2 none [] hHr hFr]
      cases ch with
      | none =>
        rw [specBodies_cons_other line rs hNH]
        simp [flushHunk]
      | some hi =>
        rw [specBodies_cons_other line rs hNH, takeBody_cons_stop line rs (by simp [hFile])]
        simp [flushHunk, create_hunk_with_context]
    | false =>
      cases hHunk : isHunkStart line with
      | true =>
        have hFH : (findHunkHeader line).isSome = true := by
          have h1 := hHa.1
          rw [hHunk] at h1
          simpa using h1
        obtain ⟨hi2, hhi2⟩ := Option.isSome_iff_exists.mp hFH
        rw [parseLoop_cons_hunk env f ch bl line rs hi2 hFile hHunk hhi2, List.map_append,
          ih f (some hi2) [] hHr hFr, specBodies_cons_hunk line rs hHunk]
        cases ch with
        | none => simp [flushHunk]
        | some hi =>
          rw [takeBody_cons_stop line rs (by simp [hHunk])]
          simp [flushHunk, create_hunk_with_context]
      | false =>
        cases ch with
        | some hi =>
          cases hBody : isBodyStart line with
          | true =>
            rw [parseLoop_cons_body env f hi bl line rs hFile hHunk hBody,
              ih f (some hi) (bl ++ [line]) hHr hFr,
              specBodies_cons_other line rs hHunk,
              takeBody_cons_keep line rs (by simp [hHunk, hFile]), if_pos hBody]
            simp
          | false =>
            rw [parseLoop_cons_skip_open env f hi bl line rs hFile hHunk hBody,
              ih f (some hi) bl hHr hFr,
              specBodies_cons_other line rs hHunk,
              takeBody_cons_keep line rs (by simp [hHunk, hFile]),
              if_neg (by simp [hBody])]
        | none =>
          rw [parseLoop_cons_skip_closed env (some f) bl line rs hFile (by simp [hHunk]),
            ih f none bl hHr hFr, specBodies_cons_other line rs hHunk]

theorem parseLoop_map_lines_nofile (env : Env) (rest : List Str) :
    ∀ bl, hunkHeadersOK rest = true → fileHeadersOK rest = true →
    headersPreceded false rest = true →
    (parseLoop env none none bl rest).map (fun h => h.lines) = specBodies rest := by
  induction rest with
  | nil => intro bl _ _ _; rfl
  | cons line rs ih =>
    intro bl hHa hFa hPa
    simp only [hunkHeadersOK, List.all_cons, Bool.and_eq_true] at hHa
    simp only [fileHeadersOK, List.all_cons, Bool.and_eq_true] at hFa
    simp only [headersPreceded, Bool.and_eq_true] at hPa
    have hHr : hunkHeadersOK rs = true := hHa.2
    have hFr : fileHeadersOK rs = true := hFa.2
    have hNH : isHunkStart line = false := by
      have h1 := hPa.1
      cases hx : isHunkStart line
      · rfl
      · rw [hx] at h1
        simp at h1
    cases hFile : isFileHeader line with
    | true =>
      have hBP : (extractBPath line).isSome = true := by
        have h1 := hFa.1
        rw [hFile] at h1
        simpa using h1
      obtain ⟨f2, hf2⟩ := Option.isSome_iff_exists.mp hBP
      rw [parseLoop_cons_file env none none bl line rs hFile, hf2, List.map_append,
        parseLoop_map_lines env rs f2 none [] hHr hFr, specBodies_cons_other line rs hNH]
      simp [flushHunk]
    | false =>
      have hPr : headersPreceded false rs = true := by
        have h2 := hPa.2
        rw [hFile] at h2
        simpa using h2
      rw [parseLoop_cons_skip_closed env none bl line rs hFile (by simp [hNH]),
        ih bl hHr hFr hPr, specBodies_cons_other line rs hNH]

/-- C5: on a valid unified diff — every `@@` line matches the hunk-header
pattern, every `diff --git` line names a `b/` path, and every `@@` line is
preceded by a file header — `parse_diff_hunks` returns exactly one hunk per
`@@` header, and the body lines of the returned hunks are, in order,
exactly the space/`+`/`-` lines between each header and the next header or
file boundary (the specification-side `specBodies`). -/
theorem C5_parse_diff_hunks_spec (env : Env) (d : Str)
    (h1 : hunkHeadersOK (splitLines d) = true)
    (h2 : fileHeadersOK (splitLines d) = true)
    (h3 : headersPreceded false (splitLines d) = true) :
    (parse_diff_hunks env d).map (fun h => h.lines) = specBodies (splitLines d) ∧
    (parse_diff_hunks env d).length = countHunkHeaders (splitLines d) := by
  have hmap : (parse_diff_hunks env d).map (fun h => h.lines) = specBodies (splitLines d) :=
    parseLoop_map_lines_nofile env (splitLines d) [] h1 h2 h3
  refine ⟨hmap, ?_⟩
  have hlen : (parse_diff_hunks env d).length = (specBodies (splitLines d)).length := by
    rw [← hmap, List.length_map]
  rw [hlen, specBodies_length]

/-- Witness for C5 at the concrete three-hunk diff `c5Diff`. -/
theorem C5_parse_diff_hunks_spec_witness :
    hunkHeadersOK (splitLines c5Diff) = true ∧
    fileHeadersOK (splitLines c5Diff) = true ∧
    headersPreceded false (splitLines c5Diff) = true ∧
    ((parse_diff_hunks envEmpty c5Diff).map (fun h => h.lines) =
        specBodies (splitLines c5Diff) ∧
      (parse_diff_hunks envEmpty c5Diff).length = countHunkHeaders (splitLines c5Diff)) :=
  ⟨by decide, by decide, by decide,
    C5_parse_diff_hunks_spec envEmpty c5Diff (by decide) (by decide) (by decide)⟩
